import Mathlib

/-!
Verification development for `dbfUtils.py`, a codec for the Xbase DBF
tabular file format (`dbfreader` / `dbfwriter`).

Shallow embedding conventions:
* a Python byte string is a `List Nat` with entries in 0..255;
* the input/output stream is a `List Nat` consumed from the front;
* Python exceptions (`struct.error`, `AssertionError`, `ValueError`,
  `AttributeError`, `IndexError`) become an `Except DbfError` result;
* `datetime.now()` inside `dbfwriter` is environmental, so the year/month/day
  bytes it produces are explicit parameters of the embedded `dbfwriter`.
-/

deriving instance DecidableEq for Except

namespace DbfUtils

abbrev Byte := Nat

/-- Python whitespace bytes, as recognised by `str.lstrip` / `str.strip`
and by the `int` / `decimal.Decimal` constructors. -/
def isWS (b : Byte) : Bool :=
  b == 32 || b == 9 || b == 10 || b == 11 || b == 12 || b == 13

/-- Python `s.lstrip()`. -/
def lstripB (s : List Byte) : List Byte := s.dropWhile isWS

/-- Python `s.rstrip()`. -/
def rstripB (s : List Byte) : List Byte := (s.reverse.dropWhile isWS).reverse

/-- Python `s.strip()`. -/
def stripB (s : List Byte) : List Byte := rstripB (lstripB s)

/-- Python `s.replace('\0', '')`: removes every NUL byte. -/
def removeNul (s : List Byte) : List Byte := s.filter (fun b => b ≠ 0)

/-- Python `s.ljust(width, pad)`: pads on the right, never truncates. -/
def ljustPad (width : Nat) (pad : Byte) (s : List Byte) : List Byte :=
  s ++ List.replicate (width - s.length) pad

/-- Python `s.rjust(width, pad)`: pads on the left, never truncates. -/
def rjustPad (width : Nat) (pad : Byte) (s : List Byte) : List Byte :=
  List.replicate (width - s.length) pad ++ s

/-- ASCII upper-casing of one byte, as Python `str.upper` does per character. -/
def upperB (b : Byte) : Byte := if 97 ≤ b ∧ b ≤ 122 then b - 32 else b

/-- Decimal digit expansion of a natural number (fuel-based so that it
reduces definitionally); `natDigitsAux (n+1) n` always has enough fuel. -/
def natDigitsAux : Nat → Nat → List Byte
  | 0, _ => []
  | fuel + 1, n => if n < 10 then [48 + n] else natDigitsAux fuel (n / 10) ++ [48 + n % 10]

/-- Decimal digit bytes of `n`, most significant first (`str` of a Nat). -/
def natDigits (n : Nat) : List Byte := natDigitsAux (n + 1) n

/-- Python `str` of an integer. -/
def intStr (i : Int) : List Byte :=
  if i < 0 then 45 :: natDigits i.natAbs else natDigits i.natAbs

/-- The errors the embedded codec can surface; each constructor names the
Python exception class it models. -/
inductive DbfError where
  /-- `struct.error`: short read for an unpack, or a pack argument out of range. -/
  | structError
  /-- `AssertionError`: failed `assert` (header terminator, field width). -/
  | assertError
  /-- `ValueError`: failed `int`/`Decimal`/`datetime.date`/`strftime` call. -/
  | valueError
  /-- `AttributeError`: `strftime` called on a value that is not a date. -/
  | typeError
  /-- `IndexError`: `str(value)[0]` on an empty rendering. -/
  | indexError
deriving DecidableEq

/-- Accumulating parse of a digit run; fails on any non-digit byte. -/
def parseDigitsAux : List Byte → Nat → Option Nat
  | [], acc => some acc
  | b :: bs, acc =>
      if 48 ≤ b ∧ b ≤ 57 then parseDigitsAux bs (acc * 10 + (b - 48)) else none

/-- Parses a nonempty run of decimal digits. -/
def parseDigits : List Byte → Option Nat
  | [] => none
  | b :: bs => parseDigitsAux (b :: bs) 0

/-- Core of Python 2 `int(s)` on an already-stripped string: optional sign
followed by a nonempty digit run; anything else raises `ValueError`. -/
def pyIntCore : List Byte → Except DbfError Int
  | 43 :: rest =>
      match parseDigits rest with
      | some n => .ok (n : Int)
      | none => .error .valueError
  | 45 :: rest =>
      match parseDigits rest with
      | some n => .ok (-(n : Int))
      | none => .error .valueError
  | s =>
      match parseDigits s with
      | some n => .ok (n : Int)
      | none => .error .valueError

/-- Python 2 `int(s)` for base 10: surrounding whitespace is ignored. -/
def pyIntParse (s : List Byte) : Except DbfError Int := pyIntCore (stripB s)

/-- The value of `decimal.Decimal`: sign, coefficient, exponent, preserving
trailing zeros exactly as Python's arbitrary-precision decimal does. -/
structure PyDecimal where
  neg : Bool
  coeff : Nat
  exp : Int
deriving DecidableEq

/-- Splits off an optional leading `+`/`-` sign. -/
def parseSign : List Byte → Bool × List Byte
  | 43 :: bs => (false, bs)
  | 45 :: bs => (true, bs)
  | bs => (false, bs)

/-- Splits a numeric string at its first `e`/`E`, if any. -/
def splitAtExp : List Byte → List Byte × Option (List Byte)
  | [] => ([], none)
  | b :: bs =>
      if b = 101 ∨ b = 69 then ([], some bs)
      else
        let p := splitAtExp bs
        (b :: p.1, p.2)

/-- Splits at the first `.`, if any. -/
def splitAtPoint : List Byte → List Byte × Option (List Byte)
  | [] => ([], none)
  | b :: bs =>
      if b = 46 then ([], some bs)
      else
        let p := splitAtPoint bs
        (b :: p.1, p.2)

/-- Is every byte an ASCII decimal digit? -/
def allDigits (s : List Byte) : Bool := s.all (fun b => 48 ≤ b && b ≤ 57)

/-- Numeric value of a digit string (leading zeros allowed). -/
def digitsVal (s : List Byte) : Nat := s.foldl (fun a b => a * 10 + (b - 48)) 0

/-- Mantissa of a decimal literal: digits with at most one point and at
least one digit overall; returns coefficient and (≤ 0) exponent. -/
def parseMantissa (s : List Byte) : Option (Nat × Int) :=
  match splitAtPoint s with
  | (ip, none) =>
      if ip ≠ [] ∧ allDigits ip then some (digitsVal ip, 0) else none
  | (ip, some fp) =>
      if ip ++ fp ≠ [] ∧ allDigits ip ∧ allDigits fp then
        some (digitsVal (ip ++ fp), -(fp.length : Int))
      else none

/-- Core of `decimal.Decimal(s)` on an already-stripped numeric string
(the special values NaN/Infinity, which no DBF numeric field produces,
are not modelled): sign, mantissa with optional point, optional exponent. -/
def pyDecCore (s : List Byte) : Except DbfError PyDecimal :=
  let sp := parseSign s
  let me := splitAtExp sp.2
  match parseMantissa me.1 with
  | none => .error .valueError
  | some ce =>
      match me.2 with
      | none => .ok ⟨sp.1, ce.1, ce.2⟩
      | some es =>
          let esp := parseSign es
          match parseDigits esp.2 with
          | none => .error .valueError
          | some k => .ok ⟨sp.1, ce.1, ce.2 + (if esp.1 then -(k : Int) else (k : Int))⟩

/-- `decimal.Decimal(s)`: surrounding whitespace is ignored. -/
def pyDecimalParse (s : List Byte) : Except DbfError PyDecimal :=
  pyDecCore (stripB s)

/-- `str` of a `decimal.Decimal`: the to-scientific-string algorithm of the
decimal arithmetic specification that Python's `Decimal.__str__` follows. -/
def decimalStr (d : PyDecimal) : List Byte :=
  let ds := natDigits d.coeff
  let adj : Int := d.exp + (ds.length : Int) - 1
  let body :=
    if d.exp ≤ 0 ∧ -6 ≤ adj then
      if d.exp = 0 then ds
      else if (0 : Int) < (ds.length : Int) + d.exp then
        ds.take ((ds.length : Int) + d.exp).toNat ++ [46] ++
          ds.drop ((ds.length : Int) + d.exp).toNat
      else
        [48, 46] ++ List.replicate ((-(ds.length : Int) - d.exp).toNat) 48 ++ ds
    else
      (match ds with
       | [] => ds
       | [c] => [c]
       | c :: rest => c :: 46 :: rest) ++
      [69] ++ (if adj < 0 then [45] else [43]) ++ natDigits adj.natAbs
  if d.neg then 45 :: body else body

/-- A decoded DBF cell value: the dynamic Python value each field type
yields (`str`, `int`, `decimal.Decimal`, `datetime.date`). The logical
type decodes to the one-character strings `'T'` / `'F'` / `'?'`. -/
inductive Value where
  | str (s : List Byte)
  | int (n : Int)
  | dec (d : PyDecimal)
  | date (y m d : Nat)
deriving DecidableEq

/-- Python `str(value)` for the values the codec handles
(`str(date)` is ISO `YYYY-MM-DD`). -/
def pyStr : Value → List Byte
  | .str s => s
  | .int n => intStr n
  | .dec d => decimalStr d
  | .date y m d =>
      rjustPad 4 48 (natDigits y) ++ [45] ++ rjustPad 2 48 (natDigits m) ++
        [45] ++ rjustPad 2 48 (natDigits d)

/-- Does `hay` start with `needle`? -/
def startsWith : List Byte → List Byte → Bool
  | [], _ => true
  | _ :: _, [] => false
  | a :: as_, b :: bs => a == b && startsWith as_ bs

/-- Python `needle in hay`: contiguous substring test (the empty needle is
always a substring). -/
def pyIn (needle : List Byte) : List Byte → Bool
  | [] => needle.isEmpty
  | b :: rest => startsWith needle (b :: rest) || pyIn needle rest

/-- Gregorian leap year, as `datetime` uses. -/
def isLeap (y : Nat) : Bool := y % 4 == 0 && (y % 100 != 0 || y % 400 == 0)

/-- Days in a month, as `datetime` uses. -/
def daysInMonth (y m : Nat) : Nat :=
  if m = 2 then (if isLeap y then 29 else 28)
  else if m = 4 ∨ m = 6 ∨ m = 9 ∨ m = 11 then 30
  else 31

/-- `datetime.date(y, m, d)`: validates ranges, raising `ValueError`
outside 1..9999 / 1..12 / 1..month length. -/
def mkDate (y m d : Int) : Except DbfError Value :=
  if 1 ≤ y ∧ y ≤ 9999 ∧ 1 ≤ m ∧ m ≤ 12 ∧ 1 ≤ d ∧ (d : Int) ≤ (daysInMonth y.toNat m.toNat : Int)
  then .ok (.date y.toNat m.toNat d.toNat)
  else .error .valueError

/-! ## ValueCoercion, decode direction (`dbfreader`, lines 46-63) -/

/-- Decode of a `'N'` (Numeric) field slice, exactly as `dbfreader` does:
`value = value.replace('\0', '').lstrip()`, then empty means integer zero,
`deci` nonzero means `decimal.Decimal(value)`, otherwise `int(value)`. -/
def decodeNumeric (deci : Nat) (raw : List Byte) : Except DbfError Value :=
  let v := lstripB (removeNul raw)
  if v = [] then .ok (.int 0)
  else if deci ≠ 0 then (pyDecimalParse v).map .dec
  else (pyIntParse v).map .int

/-- Decode of a `'D'` (Date) field slice:
`int(value[:4])`, `int(value[4:6])`, `int(value[6:8])`, then `datetime.date`. -/
def decodeDate (raw : List Byte) : Except DbfError Value := do
  let y ← pyIntParse (raw.take 4)
  let m ← pyIntParse ((raw.drop 4).take 2)
  let d ← pyIntParse ((raw.drop 6).take 2)
  mkDate y m d

/-- Decode of a `'L'` (Logical) field slice:
`(value in 'YyTt' and 'T') or (value in 'NnFf' and 'F') or '?'`. -/
def decodeLogical (raw : List Byte) : Value :=
  if pyIn raw [89, 121, 84, 116] then .str [84]
  else if pyIn raw [78, 110, 70, 102] then .str [70]
  else .str [63]

/-- Per-field decode dispatch of `dbfreader`: `'N'`, `'D'`, `'L'` get their
coercions, any other type code leaves the raw slice as the value. -/
def decodeField (typ : Byte) (deci : Nat) (raw : List Byte) : Except DbfError Value :=
  if typ = 78 then decodeNumeric deci raw
  else if typ = 68 then decodeDate raw
  else if typ = 76 then .ok (decodeLogical raw)
  else .ok (.str raw)

/-! ## HeaderCodec, decode direction (`dbfreader`, lines 25-41) -/

/-- One parsed field descriptor: `(name, typ, size, deci)` as unpacked by
`struct.unpack('<11sc4xBB14x', ...)` with the name NUL-stripped. -/
structure Field where
  name : List Byte
  typ : Byte
  size : Nat
  deci : Nat
deriving DecidableEq

/-- The bytes of the synthetic field name `"DeletionFlag"`. -/
def dfName : List Byte := [68, 101, 108, 101, 116, 105, 111, 110, 70, 108, 97, 103]

/-- The synthetic descriptor `('DeletionFlag', 'C', 1, 0)` that `dbfreader`
prepends before unpacking records. -/
def dfField : Field := ⟨dfName, 67, 1, 0⟩

/-- Parses one 32-byte descriptor block: bytes 0-10 name (all NULs removed,
as `name.replace('\0', '')` does), byte 11 type code, byte 16 size,
byte 17 decimal places. -/
def parseFieldDesc (bs : List Byte) : Field :=
  ⟨removeNul (bs.take 11), bs.getD 11 0, bs.getD 16 0, bs.getD 17 0⟩

/-- Little-endian value of a byte list (`struct` formats `L` and `H`). -/
def leNat (bs : List Byte) : Nat := bs.foldr (fun b acc => b + 256 * acc) 0

/-- Little-endian 2-byte encoding (`struct` format `H`). -/
def le16 (n : Nat) : List Byte := [n % 256, n / 256 % 256]

/-- Little-endian 4-byte encoding (`struct` format `L`). -/
def le32 (n : Nat) : List Byte :=
  [n % 256, n / 256 % 256, n / 65536 % 256, n / 16777216 % 256]

/-- `f.read(n)` followed by a fixed-size `struct.unpack`: yields the first
`n` bytes and the rest of the stream, or `struct.error` when fewer than `n`
bytes remain. -/
def readBytes (n : Nat) (s : List Byte) : Except DbfError (List Byte × List Byte) :=
  if n ≤ s.length then .ok (s.take n, s.drop n) else .error .structError

/-- `numfields = (lenheader - 33) // 32`: Python floor division on an
unbounded integer; a negative result makes `xrange` empty, hence `toNat`. -/
def numFieldsOf (lenheader : Nat) : Nat :=
  (((lenheader : Int) - 33).fdiv 32).toNat

/-- Reads `k` 32-byte field descriptor blocks. -/
def readFields : Nat → List Byte → Except DbfError (List Field × List Byte)
  | 0, s => .ok ([], s)
  | k + 1, s =>
      match readBytes 32 s with
      | .error e => .error e
      | .ok (bs, s1) =>
          match readFields k s1 with
          | .error e => .error e
          | .ok (rest, s2) => .ok (parseFieldDesc bs :: rest, s2)

/-! ## RecordDecoder (`dbfreader`, lines 39-64) -/

/-- `struct.unpack` of a concatenation of `'%ds'` items: cuts the buffer
into consecutive slices of the given sizes. -/
def splitSizes : List Nat → List Byte → List (List Byte)
  | [], _ => []
  | sz :: rest, s => s.take sz :: splitSizes rest (s.drop sz)

/-- Decodes one unpacked record: walks `izip(fields, record)` left to
right, skipping any field named `DeletionFlag`, coercing the rest. -/
def decodeRecord : List Field → List (List Byte) → Except DbfError (List Value)
  | [], _ => .ok []
  | _ :: _, [] => .ok []
  | f :: fs, v :: vs =>
      if f.name = dfName then decodeRecord fs vs
      else
        match decodeField f.typ f.deci v with
        | .error e => .error e
        | .ok val =>
            match decodeRecord fs vs with
            | .error e => .error e
            | .ok rest => .ok (val :: rest)

/-- The record loop of `dbfreader`: reads `numrec` buffers of `fmtsiz`
bytes; a record whose first slice is not `' '` is skipped (`continue`),
any other is decoded and yielded. Returns the yielded records and the
unread remainder of the stream. -/
def readRecords (fields : List Field) (fmtsiz : Nat) :
    Nat → List Byte → Except DbfError (List (List Value) × List Byte)
  | 0, s => .ok ([], s)
  | n + 1, s =>
      match readBytes fmtsiz s with
      | .error e => .error e
      | .ok (raw, s1) =>
          if (splitSizes (fields.map Field.size) raw).headD [] ≠ [32] then
            readRecords fields fmtsiz n s1
          else
            match decodeRecord fields (splitSizes (fields.map Field.size) raw) with
            | .error e => .error e
            | .ok rec =>
                match readRecords fields fmtsiz n s1 with
                | .error e => .error e
                | .ok (rest, s2) => .ok (rec :: rest, s2)

/-- Everything `dbfreader` yields: the field-name row, the field-spec row,
then the data records. -/
structure DbfData where
  names : List (List Byte)
  specs : List (Byte × Nat × Nat)
  records : List (List Value)
deriving DecidableEq

/-- `dbfreader`, with the consumed stream made explicit: returns the
yielded data together with the unread remainder of the input stream. -/
def dbfreaderRun (s : List Byte) : Except DbfError (DbfData × List Byte) :=
  match readBytes 32 s with
  | .error e => .error e
  | .ok (hdr, s1) =>
      let numrec := leNat ((hdr.drop 4).take 4)
      let lenheader := leNat ((hdr.drop 8).take 2)
      match readFields (numFieldsOf lenheader) s1 with
      | .error e => .error e
      | .ok (fields, s2) =>
          match s2 with
          | 13 :: s3 =>
              let allFields := dfField :: fields
              match readRecords allFields ((allFields.map Field.size).sum) numrec s3 with
              | .error e => .error e
              | .ok (recs, s4) =>
                  .ok (⟨fields.map Field.name,
                        fields.map (fun f => (f.typ, f.size, f.deci)), recs⟩, s4)
          | _ => .error .assertError

/-- `dbfreader f`: the full decoded output of the generator. -/
def dbfreader (s : List Byte) : Except DbfError DbfData :=
  match dbfreaderRun s with
  | .error e => .error e
  | .ok (d, _) => .ok d

/-! ## RecordEncoder and HeaderCodec, encode direction (`dbfwriter`) -/

/-- The value rendering of `dbfwriter`'s per-field branch, before the
width `assert`: `'N'` is `str(value).rjust(size, ' ')`, `'D'` is
`value.strftime('%Y%m%d')` (Python 2 `strftime` raises `ValueError`
below year 1900, `AttributeError` on a non-date), `'L'` is
`str(value)[0].upper()`, anything else is `str(value)[:size].ljust(size, ' ')`. -/
def renderRaw (typ : Byte) (size : Nat) (v : Value) : Except DbfError (List Byte) :=
  if typ = 78 then .ok (rjustPad size 32 (pyStr v))
  else if typ = 68 then
    match v with
    | .date y m d =>
        if y < 1900 then .error .valueError
        else .ok (rjustPad 4 48 (natDigits y) ++ rjustPad 2 48 (natDigits m) ++
                  rjustPad 2 48 (natDigits d))
    | _ => .error .typeError
  else if typ = 76 then
    match pyStr v with
    | [] => .error .indexError
    | b :: _ => .ok [upperB b]
  else .ok (ljustPad size 32 ((pyStr v).take size))

/-- One field of `dbfwriter`'s record loop: render, then
`assert len(value) == size`. -/
def renderField (typ : Byte) (size : Nat) (v : Value) : Except DbfError (List Byte) :=
  match renderRaw typ size v with
  | .error e => .error e
  | .ok bs => if bs.length = size then .ok bs else .error .assertError

/-- `for (typ, size, deci), value in izip(fieldspecs, record)`: renders and
writes each zipped pair left to right (`deci` is unused when encoding). -/
def writeFields : List (Byte × Nat × Nat) → List Value → Except DbfError (List Byte)
  | [], _ => .ok []
  | _ :: _, [] => .ok []
  | (typ, size, _deci) :: fs, v :: vs =>
      match renderField typ size v with
      | .error e => .error e
      | .ok bs =>
          match writeFields fs vs with
          | .error e => .error e
          | .ok rest => .ok (bs ++ rest)

/-- One encoded record: the `' '` deletion flag byte followed by the
rendered fields. -/
def writeRecord (specs : List (Byte × Nat × Nat)) (record : List Value) :
    Except DbfError (List Byte) :=
  match writeFields specs record with
  | .error e => .error e
  | .ok bs => .ok (32 :: bs)

/-- All records, concatenated in order. -/
def writeRecords (specs : List (Byte × Nat × Nat)) :
    List (List Value) → Except DbfError (List Byte)
  | [] => .ok []
  | r :: rs =>
      match writeRecord specs r with
      | .error e => .error e
      | .ok b =>
          match writeRecords specs rs with
          | .error e => .error e
          | .ok rest => .ok (b ++ rest)

/-- The descriptor loop of `dbfwriter`: for each zipped
`(name, (typ, size, deci))`, `name.ljust(11, '\x00')` packed as
`'<11sc4xBB14x'` (`'11s'` truncates an over-long name; `'B'` raises
`struct.error` when `size` or `deci` exceeds 255). -/
def writeFieldDescs : List (List Byte × Byte × Nat × Nat) → Except DbfError (List Byte)
  | [] => .ok []
  | (name, typ, size, deci) :: rest =>
      if size < 256 ∧ deci < 256 then
        match writeFieldDescs rest with
        | .error e => .error e
        | .ok bs =>
            .ok (((ljustPad 11 0 name).take 11 ++ [typ] ++ [0, 0, 0, 0] ++
                  [size, deci] ++ List.replicate 14 0) ++ bs)
      else .error .structError

/-- `dbfwriter f fieldnames fieldspecs records numrec`. The bytes `yr`,
`mon`, `day` are the values `now.year - 1900`, `now.month`, `now.day`
that the source takes from `datetime.datetime.now()`, made parameters
here because they are environmental. Returns the full byte stream
written to `f`, or the first error raised. -/
def dbfwriter (fieldnames : List (List Byte)) (fieldspecs : List (Byte × Nat × Nat))
    (records : List (List Value)) (numrecOpt : Option Nat) (yr mon day : Nat) :
    Except DbfError (List Byte) :=
  let numrec := numrecOpt.getD records.length
  let numfields := fieldspecs.length
  let lenheader := numfields * 32 + 33
  let lenrecord := (fieldspecs.map (fun f => f.2.1)).sum + 1
  if yr < 256 ∧ mon < 256 ∧ day < 256 ∧ numrec < 4294967296 ∧
      lenheader < 65536 ∧ lenrecord < 65536 then
    match writeFieldDescs (fieldnames.zip fieldspecs) with
    | .error e => .error e
    | .ok flds =>
        match writeRecords fieldspecs records with
        | .error e => .error e
        | .ok recs =>
            .ok (([3, yr, mon, day] ++ le32 numrec ++ le16 lenheader ++
                  le16 lenrecord ++ List.replicate 20 0) ++
                 flds ++ [13] ++ recs ++ [26])
  else .error .structError

/-! ## Concrete fixtures -/

/-- `k` copies of a byte block, concatenated (a run of identical on-disk
field descriptors). -/
def flatRep : Nat → List Byte → List Byte
  | 0, _ => []
  | k + 1, blk => blk ++ flatRep k blk

/-- A 32-byte descriptor block for a field named `"F"` of type `'C'`,
size 1, no decimals. -/
def descBlockC : List Byte :=
  [70] ++ List.replicate 10 0 ++ [67] ++ [0, 0, 0, 0] ++ [1, 0] ++ List.replicate 14 0

/-! ## Spec-side definitions (for refinement claims) -/

/-- The numeric decode rule as the spec words it, for comparison with the
source's `decodeNumeric`: remove NUL bytes and leading *and trailing*
whitespace; an empty result is the integer zero; otherwise a positive
`decimalPlaces` means the arbitrary-precision decimal parse of the trimmed
text and zero `decimalPlaces` means the integer parse of the trimmed text. -/
def decodeNumericSpec (deci : Nat) (raw : List Byte) : Except DbfError Value :=
  let t := stripB (removeNul raw)
  if t = [] then .ok (.int 0)
  else if 0 < deci then (pyDecimalParse t).map .dec
  else (pyIntParse t).map .int

/-! ## Shared lemmas -/

/-- A byte run surviving `dropWhile p` cannot start with a `p`-byte. -/
lemma dropWhile_cons_not (p : Byte → Bool) (l : List Byte) (a : Byte) (v : List Byte)
    (h : List.dropWhile p l = a :: v) : p a = false := by
  induction l with
  | nil => simp [List.dropWhile] at h
  | cons b bs ih =>
      rw [List.dropWhile_cons] at h
      by_cases hb : p b = true
      · rw [if_pos hb] at h; exact ih h
      · rw [if_neg hb] at h
        cases h
        simpa using hb

/-- `dropWhile` over an appended singleton. -/
lemma dropWhile_append_singleton (p : Byte → Bool) (l : List Byte) (a : Byte) :
    List.dropWhile p (l ++ [a]) =
      if List.dropWhile p l = [] then (if p a then [] else [a])
      else List.dropWhile p l ++ [a] := by
  induction l with
  | nil => by_cases ha : p a = true <;> simp [List.dropWhile, ha]
  | cons b bs ih =>
      rw [List.cons_append, List.dropWhile_cons, List.dropWhile_cons]
      by_cases hb : p b = true
      · rw [if_pos hb, if_pos hb, ih]
      · rw [if_neg hb, if_neg hb, if_neg (by simp)]
        simp

/-- `rstripB` of a nonempty list is empty or keeps the original head. -/
lemma rstripB_cons_head (a : Byte) (v : List Byte) :
    rstripB (a :: v) = [] ∨ ∃ zs, rstripB (a :: v) = a :: zs := by
  unfold rstripB
  rw [List.reverse_cons, dropWhile_append_singleton]
  by_cases h : List.dropWhile isWS v.reverse = []
  · rw [if_pos h]
    by_cases ha : isWS a = true
    · rw [if_pos ha]; left; rfl
    · rw [if_neg ha]; right; exact ⟨[], rfl⟩
  · rw [if_neg h]
    right
    exact ⟨(List.dropWhile isWS v.reverse).reverse, by simp⟩

/-- A left-stripped list stays fixed under another left strip after a
right strip. -/
lemma lstripB_rstripB (y : List Byte) (hy : lstripB y = y) :
    lstripB (rstripB y) = rstripB y := by
  cases y with
  | nil => rfl
  | cons a v =>
      have ha : isWS a = false := by
        unfold lstripB at hy
        exact dropWhile_cons_not isWS (a :: v) a v hy
      rcases rstripB_cons_head a v with h | ⟨zs, h⟩
      · rw [h]; rfl
      · rw [h]
        unfold lstripB
        rw [List.dropWhile_cons, if_neg (by simp [ha])]

/-- Left-stripping is idempotent. -/
lemma lstripB_idem (s : List Byte) : lstripB (lstripB s) = lstripB s :=
  List.dropWhile_idempotent isWS s

/-- Right-stripping is idempotent. -/
lemma rstripB_idem (s : List Byte) : rstripB (rstripB s) = rstripB s := by
  unfold rstripB
  rw [List.reverse_reverse, List.dropWhile_idempotent]

/-- Stripping both sides after a left strip is plain stripping. -/
lemma stripB_lstripB (s : List Byte) : stripB (lstripB s) = stripB s := by
  unfold stripB
  rw [lstripB_idem]

/-- Stripping both sides is idempotent. -/
lemma stripB_idem (s : List Byte) : stripB (stripB s) = stripB s := by
  unfold stripB
  rw [lstripB_rstripB (lstripB s) (lstripB_idem s), rstripB_idem]

/-- A list left-strips to nothing exactly when it strips to nothing. -/
lemma lstripB_eq_nil_iff (s : List Byte) : lstripB s = [] ↔ stripB s = [] := by
  constructor
  · intro h
    unfold stripB
    rw [h]
    rfl
  · intro h
    unfold stripB rstripB at h
    rw [List.reverse_eq_nil_iff] at h
    have h2 : ∀ x ∈ (lstripB s).reverse, isWS x := List.dropWhile_eq_nil_iff.mp h
    cases hc : lstripB s with
    | nil => rfl
    | cons a v =>
        have ha : isWS a = false := by
          unfold lstripB at hc
          exact dropWhile_cons_not isWS s a v hc
        have : isWS a = true := h2 a (by simp [hc])
        rw [ha] at this
        cases this

/-- `int(...)` does not see leading whitespace. -/
lemma pyIntParse_lstripB (s : List Byte) : pyIntParse (lstripB s) = pyIntParse s := by
  unfold pyIntParse
  rw [stripB_lstripB]

/-- `int(...)` does not see surrounding whitespace. -/
lemma pyIntParse_stripB (s : List Byte) : pyIntParse (stripB s) = pyIntParse s := by
  unfold pyIntParse
  rw [stripB_idem]

/-- `Decimal(...)` does not see leading whitespace. -/
lemma pyDecimalParse_lstripB (s : List Byte) :
    pyDecimalParse (lstripB s) = pyDecimalParse s := by
  unfold pyDecimalParse
  rw [stripB_lstripB]

/-- `Decimal(...)` does not see surrounding whitespace. -/
lemma pyDecimalParse_stripB (s : List Byte) :
    pyDecimalParse (stripB s) = pyDecimalParse s := by
  unfold pyDecimalParse
  rw [stripB_idem]

/-- The first four header bytes (version and date stamp) never influence
`dbfreaderRun`: the reader only unpacks offsets 4-7 and 8-9 of the prologue. -/
lemma dbfreaderRun_first4 (b0 b1 b2 b3 c0 c1 c2 c3 : Byte) (rest : List Byte) :
    dbfreaderRun (b0::b1::b2::b3::rest) = dbfreaderRun (c0::c1::c2::c3::rest) := by
  unfold dbfreaderRun readBytes
  by_cases h : (32:Nat) ≤ (b0::b1::b2::b3::rest).length
  · have h' : (32:Nat) ≤ (c0::c1::c2::c3::rest).length := by
      simp only [List.length_cons] at h ⊢; omega
    rw [if_pos h, if_pos h']
    simp
  · have h' : ¬ (32:Nat) ≤ (c0::c1::c2::c3::rest).length := by
      simp only [List.length_cons] at h ⊢; omega
    rw [if_neg h, if_neg h']

/-- The date stamp only lands in header bytes 1-3 of `dbfwriter`'s output;
the rest of the stream is what a fixed stamp produces. -/
lemma dbfwriter_first4 (ns : List (List Byte)) (fs : List (Byte × Nat × Nat))
    (rs : List (List Value)) (nro : Option Nat) (yr mon day : Nat)
    (h1 : yr < 256) (h2 : mon < 256) (h3 : day < 256) :
    dbfwriter ns fs rs nro yr mon day
      = (dbfwriter ns fs rs nro 0 0 0).map (fun bs => 3 :: yr :: mon :: day :: bs.drop 4) := by
  unfold dbfwriter
  by_cases hP : nro.getD rs.length < 4294967296 ∧ fs.length * 32 + 33 < 65536 ∧
      (fs.map (fun f => f.2.1)).sum + 1 < 65536
  · rw [if_pos ⟨h1, h2, h3, hP.1, hP.2.1, hP.2.2⟩,
        if_pos ⟨by omega, by omega, by omega, hP.1, hP.2.1, hP.2.2⟩]
    cases hf : writeFieldDescs (ns.zip fs) <;> cases hr : writeRecords fs rs <;>
      simp [Except.map]
  · rw [if_neg (by tauto), if_neg (by tauto)]
    rfl

/-! ## Claims -/

/-- C1: encoding the single record `{Name: "Alice", Age: 30}` with field
specs `[("Name", Character, 10, 0), ("Age", Numeric, 3, 0)]` via
`dbfwriter` (at any representable write-date stamp) and then decoding the
resulting bytes via `dbfreader` yields field names `["Name", "Age"]`,
field specs `[(Character, 10, 0), (Numeric, 3, 0)]`, and exactly one
record `["Alice     ", 30]`: the character field space-padded to width 10
and the numeric field parsed back to the integer 30. -/
theorem C1_roundtrip_alice (yr mon day : Nat)
    (h1 : yr < 256) (h2 : mon < 256) (h3 : day < 256) :
    (dbfwriter [[78,97,109,101],[65,103,101]] [(67,10,0),(78,3,0)]
      [[.str [65,108,105,99,101], .int 30]] none yr mon day).bind dbfreader
    = .ok ⟨[[78,97,109,101],[65,103,101]], [(67,10,0),(78,3,0)],
        [[.str [65,108,105,99,101,32,32,32,32,32], .int 30]]⟩ := by
  rw [dbfwriter_first4 _ _ _ _ _ _ _ h1 h2 h3]
  rw [show dbfwriter [[78,97,109,101],[65,103,101]] [(67,10,0),(78,3,0)]
      [[.str [65,108,105,99,101], .int 30]] none 0 0 0
    = .ok [3, 0, 0, 0, 1, 0, 0, 0, 97, 0, 14, 0, 0, 0, 0, 0, 0, 0, 0, 0, 0, 0, 0, 0, 0, 0,
        0, 0, 0, 0, 0, 0, 78, 97, 109, 101, 0, 0, 0, 0, 0, 0, 0, 67, 0, 0, 0, 0, 10, 0, 0,
        0, 0, 0, 0, 0, 0, 0, 0, 0, 0, 0, 0, 0, 65, 103, 101, 0, 0, 0, 0, 0, 0, 0, 0, 78, 0,
        0, 0, 0, 3, 0, 0, 0, 0, 0, 0, 0, 0, 0, 0, 0, 0, 0, 0, 0, 13, 32, 65, 108, 105, 99,
        101, 32, 32, 32, 32, 32, 32, 51, 48, 26] from by decide]
  simp only [Except.map, Except.bind]
  unfold dbfreader
  rw [dbfreaderRun_first4 3 yr mon day 0 0 0 0]
  decide

/-- Witness for C1: the round trip at the concrete date stamp 126/10/12. -/
theorem C1_roundtrip_alice_witness :
    (dbfwriter [[78,97,109,101],[65,103,101]] [(67,10,0),(78,3,0)]
      [[.str [65,108,105,99,101], .int 30]] none 126 10 12).bind dbfreader
    = .ok ⟨[[78,97,109,101],[65,103,101]], [(67,10,0),(78,3,0)],
        [[.str [65,108,105,99,101,32,32,32,32,32], .int 30]]⟩ :=
  C1_roundtrip_alice 126 10 12 (by decide) (by decide) (by decide)

/-- C3: for every raw fixed-width slice of a Numeric field, decoding first
removes NUL bytes and leading/trailing whitespace; an empty result yields
the integer zero; otherwise a positive `decimalPlaces` yields the
arbitrary-precision decimal parse of the trimmed text and a zero
`decimalPlaces` yields the integer parse of the trimmed text. The source
only strips on the left, but the parses themselves ignore trailing
whitespace, so its behaviour coincides with the spec's description
(`decodeNumericSpec`) on every input. -/
theorem C3_numeric_decode (deci : Nat) (raw : List Byte) :
    decodeNumeric deci raw = decodeNumericSpec deci raw := by
  unfold decodeNumeric decodeNumericSpec
  by_cases h : lstripB (removeNul raw) = []
  · rw [if_pos h, if_pos ((lstripB_eq_nil_iff (removeNul raw)).mp h)]
  · rw [if_neg h, if_neg (fun hc => h ((lstripB_eq_nil_iff (removeNul raw)).mpr hc))]
    by_cases hd : deci = 0
    · rw [if_neg (by omega), if_neg (by omega),
          pyIntParse_lstripB, pyIntParse_stripB]
    · rw [if_pos hd, if_pos (by omega),
          pyDecimalParse_lstripB, pyDecimalParse_stripB]

set_option maxRecDepth 8192 in
/-- C4: a single raw byte of a Logical field decodes to `'T'` (true) for
each of `Y`, `y`, `T`, `t`, to `'F'` (false) for each of `N`, `n`, `F`,
`f`, and to the tri-state `'?'` (unknown) for every other byte; logical
decoding never fails with an error for any input byte. -/
theorem C4_logical_byte (b : Byte) (h : b < 256) :
    decodeField 76 0 [b]
      = .ok (.str [if b ∈ [89, 121, 84, 116] then 84
                   else if b ∈ [78, 110, 70, 102] then 70 else 63]) := by
  revert b
  decide

/-- Witness for C4: the byte `'?'` (0x3F) decodes to unknown. -/
theorem C4_logical_byte_witness :
    decodeField 76 0 [63]
      = .ok (.str [if (63 : Byte) ∈ [89, 121, 84, 116] then 84
                   else if (63 : Byte) ∈ [78, 110, 70, 102] then 70 else 63]) :=
  C4_logical_byte 63 (by decide)

/-- C6: when the rendered byte form of a field value has length different
from the field's declared size (for example a numeric value whose decimal
text is wider than the size), the encoder's `assert len(value) == size`
fails instead of writing a mis-sized slice. -/
theorem C6_width_mismatch (typ : Byte) (size : Nat) (v : Value) (bs : List Byte)
    (h1 : renderRaw typ size v = .ok bs) (h2 : bs.length ≠ size) :
    renderField typ size v = .error .assertError := by
  unfold renderField
  rw [h1]
  exact if_neg h2

/-- Witness for C6: the integer 1234 renders to 4 bytes for a Numeric
field of size 3, so encoding it fails. -/
theorem C6_width_mismatch_witness :
    renderRaw 78 3 (.int 1234) = .ok [49, 50, 51, 52] ∧
      renderField 78 3 (.int 1234) = .error .assertError :=
  ⟨by decide, C6_width_mismatch 78 3 (.int 1234) [49, 50, 51, 52] (by decide) (by decide)⟩

/-- C7: the raw ASCII bytes `"20230615"` in a Date field decode to the
calendar date 2023-06-15, and encoding that date into a Date field of
size 8 reproduces exactly the original 8 bytes. -/
theorem C7_date_roundtrip :
    decodeField 68 0 [50, 48, 50, 51, 48, 54, 49, 53] = .ok (.date 2023 6 15) ∧
      renderField 68 8 (.date 2023 6 15) = .ok [50, 48, 50, 51, 48, 54, 49, 53] := by
  decide

/-- Reading exactly the length of a prefix consumes that prefix. -/
lemma readBytes_exact (n : Nat) (pre rest : List Byte) (h : pre.length = n) :
    readBytes n (pre ++ rest) = .ok (pre, rest) := by
  unfold readBytes
  rw [if_pos (by simp [← h]), List.take_left' h, List.drop_left' h]

/-- The record loop never yields more records than it was asked to read. -/
lemma readRecords_length_le (flds : List Field) (fsz n : Nat) :
    ∀ s rs rest, readRecords flds fsz n s = .ok (rs, rest) → rs.length ≤ n := by
  induction n with
  | zero =>
      intro s rs rest h
      simp only [readRecords] at h
      cases h
      simp
  | succ n ih =>
      intro s rs rest h
      simp only [readRecords] at h
      split at h
      next e heq => cases h
      next raw s1 heq =>
        split at h
        next hc => exact le_trans (ih _ _ _ h) (by omega)
        next hc =>
          split at h
          next e heq2 => cases h
          next rec heq2 =>
            split at h
            next e heq3 => cases h
            next rest' s2 heq3 =>
              cases h
              have := ih _ _ _ heq3
              simp
              omega

/-- C5: a raw record block whose first byte is not the space byte 0x20 is
omitted from the yielded sequence without an error: its full
`recordLength` bytes are consumed and decoding continues on the rest of
the stream exactly as if the block were absent (so a following
well-formed record still decodes); moreover, the yielded sequence is
never longer than the declared record count. -/
theorem C5_deleted_skip (ufields : List Field) (n : Nat) (rec s : List Byte)
    (hlen : rec.length = ((dfField :: ufields).map Field.size).sum)
    (hdel : rec.head? ≠ some 32) :
    readRecords (dfField :: ufields) (((dfField :: ufields).map Field.size).sum)
        (n + 1) (rec ++ s)
      = readRecords (dfField :: ufields) (((dfField :: ufields).map Field.size).sum) n s
    ∧ ∀ rs rest,
        readRecords (dfField :: ufields) (((dfField :: ufields).map Field.size).sum) n s
          = .ok (rs, rest) → rs.length ≤ n := by
  refine ⟨?_, fun rs rest h => readRecords_length_le _ _ n s rs rest h⟩
  obtain ⟨b, rec', rfl⟩ : ∃ b rec', rec = b :: rec' := by
    cases rec with
    | nil =>
        simp [dfField] at hlen
        exact absurd hlen (by omega)
    | cons b r => exact ⟨b, r, rfl⟩
  have hb : b ≠ 32 := by
    intro hc
    exact hdel (by simp [hc])
  simp only [readRecords]
  rw [readBytes_exact _ _ _ hlen]
  simp [splitSizes, dfField, hb]

/-- Witness for C5: a one-byte deleted record (first byte `'*'`) before an
empty remainder is skipped, and zero remaining records yield zero rows. -/
theorem C5_deleted_skip_witness :
    (readRecords (dfField :: []) (((dfField :: ([] : List Field)).map Field.size).sum)
        (0 + 1) ([42] ++ [])
      = readRecords (dfField :: []) (((dfField :: ([] : List Field)).map Field.size).sum) 0 [])
    ∧ ∀ rs rest,
        readRecords (dfField :: []) (((dfField :: ([] : List Field)).map Field.size).sum) 0 []
          = .ok (rs, rest) → rs.length ≤ 0 :=
  C5_deleted_skip [] 0 [42] [] (by decide) (by decide)

/-- A field that passes the width `assert` occupies exactly its size. -/
lemma renderField_length (typ : Byte) (size : Nat) (v : Value) (bs : List Byte)
    (h : renderField typ size v = .ok bs) : bs.length = size := by
  unfold renderField at h
  split at h
  next e heq => cases h
  next bs' heq =>
    split at h
    next hl => cases h; exact hl
    next hl => cases h

/-- Successfully rendered fields concatenate to the sum of the declared
sizes, provided the record supplies a value for each spec. -/
lemma writeFields_length (specs : List (Byte × Nat × Nat)) :
    ∀ r bs, specs.length ≤ r.length → writeFields specs r = .ok bs →
      bs.length = (specs.map (fun f => f.2.1)).sum := by
  induction specs with
  | nil =>
      intro r bs _ h
      cases h
      simp
  | cons f fs ih =>
      intro r bs hlen h
      cases r with
      | nil => simp at hlen
      | cons v vs =>
          obtain ⟨typ, size, deci⟩ := f
          simp only [writeFields] at h
          split at h
          next e heq => cases h
          next b1 heq =>
            split at h
            next e heq2 => cases h
            next rest heq2 =>
              cases h
              rw [List.length_append, renderField_length _ _ _ _ heq,
                  ih vs rest (by simpa using hlen) heq2]
              simp

/-- C8: the encoder recomputes the header layout from the supplied field
descriptors: the written header stores `headerLength = 33 + 32 × fieldCount`
at bytes 8-9 and `recordLength = 1 + Σ size` at bytes 10-11 (little
endian), and every record body the encoder successfully writes (given one
value per field) is exactly `recordLength` bytes: one deletion-flag byte
plus each field's fixed-width slice. -/
theorem C8_layout_derived (ns : List (List Byte)) (fs : List (Byte × Nat × Nat))
    (rcs : List (List Value)) (nro : Option Nat) (yr mon day : Nat) (out : List Byte)
    (h : dbfwriter ns fs rcs nro yr mon day = .ok out) :
    ((out.drop 8).take 2 = le16 (33 + 32 * fs.length)
      ∧ (out.drop 10).take 2 = le16 (1 + (fs.map (fun f => f.2.1)).sum))
    ∧ ∀ r body, fs.length ≤ r.length → writeRecord fs r = .ok body →
        body.length = 1 + (fs.map (fun f => f.2.1)).sum := by
  constructor
  · simp only [dbfwriter] at h
    split at h
    next hc =>
      split at h
      next e heq => cases h
      next flds heq =>
        split at h
        next e heq2 => cases h
        next recs heq2 =>
          cases h
          constructor
          · rw [show fs.length * 32 + 33 = 33 + 32 * fs.length by omega]
            simp [le32, le16]
          · rw [show (fs.map (fun f => f.2.1)).sum + 1
                  = 1 + (fs.map (fun f => f.2.1)).sum by omega]
            simp [le32, le16]
    next hc => cases h
  · intro r body hlen hw
    unfold writeRecord at hw
    split at hw
    next e heq => cases hw
    next bs heq =>
      cases hw
      simp only [List.length_cons]
      rw [writeFields_length fs r bs hlen heq]
      omega

/-- Witness for C8: the Alice/Age layout written at date stamp 0/0/0 has
header length 97 = 33 + 32 * 2 at bytes 8-9 of the emitted stream. -/
theorem C8_layout_derived_witness :
    (([3, 0, 0, 0, 1, 0, 0, 0, 97, 0, 14, 0, 0, 0, 0, 0, 0, 0, 0, 0, 0, 0, 0, 0, 0, 0,
        0, 0, 0, 0, 0, 0, 78, 97, 109, 101, 0, 0, 0, 0, 0, 0, 0, 67, 0, 0, 0, 0, 10, 0, 0,
        0, 0, 0, 0, 0, 0, 0, 0, 0, 0, 0, 0, 0, 65, 103, 101, 0, 0, 0, 0, 0, 0, 0, 0, 78, 0,
        0, 0, 0, 3, 0, 0, 0, 0, 0, 0, 0, 0, 0, 0, 0, 0, 0, 0, 0, 13, 32, 65, 108, 105, 99,
        101, 32, 32, 32, 32, 32, 32, 51, 48, 26] : List Byte).drop 8).take 2 = le16 (33 + 32 * 2) :=
  (C8_layout_derived [[78,97,109,101],[65,103,101]] [(67,10,0),(78,3,0)]
    [[.str [65,108,105,99,101], .int 30]] none 0 0 0
    [3, 0, 0, 0, 1, 0, 0, 0, 97, 0, 14, 0, 0, 0, 0, 0, 0, 0, 0, 0, 0, 0, 0, 0, 0, 0,
        0, 0, 0, 0, 0, 0, 78, 97, 109, 101, 0, 0, 0, 0, 0, 0, 0, 67, 0, 0, 0, 0, 10, 0, 0,
        0, 0, 0, 0, 0, 0, 0, 0, 0, 0, 0, 0, 0, 65, 103, 101, 0, 0, 0, 0, 0, 0, 0, 0, 78, 0,
        0, 0, 0, 3, 0, 0, 0, 0, 0, 0, 0, 0, 0, 0, 0, 0, 0, 0, 0, 13, 32, 65, 108, 105, 99,
        101, 32, 32, 32, 32, 32, 32, 51, 48, 26] (by decide)).1.1

/-- Reading `k` descriptor blocks from `k` identical 32-byte on-disk
blocks parses each one. -/
lemma readFields_flatRep (blk : List Byte) (hlen : blk.length = 32) (k : Nat) :
    ∀ rest, readFields k (flatRep k blk ++ rest)
      = .ok (List.replicate k (parseFieldDesc blk), rest) := by
  induction k with
  | zero =>
      intro rest
      simp [readFields, flatRep]
  | succ k ih =>
      intro rest
      simp only [flatRep, readFields, List.append_assoc]
      rw [readBytes_exact 32 blk _ hlen]
      simp [ih, List.replicate_succ]

/-- C2 counterexample: a header with `headerLength = 34` makes
`(headerLength − 33) / 32` non-integral, yet decoding does not fail: the
count is silently floored to zero fields and the stream decodes cleanly. -/
theorem C2_counterexample :
    dbfreader ([0, 0, 0, 0, 0, 0, 0, 0, 34, 0] ++ List.replicate 22 0 ++ [13])
      = .ok ⟨[], [], []⟩ := by
  decide

/-- C2 (amended): the field count is computed as the floor of
`(headerLength − 33) / 32`, clamped to zero when negative; for every
header whose `headerLength` makes that quantity negative or non-integral,
decoding does not fail — it silently rounds down and proceeds, reading
exactly that floored number of descriptor blocks. -/
theorem C2_field_count_floor (lh : Nat) (h1 : lh < 65536)
    (h2 : lh < 33 ∨ (lh - 33) % 32 ≠ 0) :
    dbfreader ((0 :: 0 :: 0 :: 0 :: 0 :: 0 :: 0 :: 0 :: (lh % 256) :: (lh / 256 % 256)
          :: List.replicate 22 0)
        ++ flatRep (numFieldsOf lh) descBlockC ++ [13])
      = .ok ⟨List.replicate (numFieldsOf lh) [70],
             List.replicate (numFieldsOf lh) (67, 1, 0), []⟩ := by
  have hleq : leNat [lh % 256, lh / 256 % 256] = lh := by
    simp [leNat]
    omega
  unfold dbfreader dbfreaderRun
  rw [List.append_assoc,
      readBytes_exact 32 (0 :: 0 :: 0 :: 0 :: 0 :: 0 :: 0 :: 0 :: (lh % 256)
        :: (lh / 256 % 256) :: List.replicate 22 0) _ (by simp)]
  simp only [List.drop_succ_cons, List.drop_zero, List.take_succ_cons, List.take_zero]
  rw [show leNat [0, 0, 0, 0] = 0 from by decide, hleq,
      readFields_flatRep descBlockC (by decide) (numFieldsOf lh) [13]]
  simp [readRecords, List.map_replicate,
        show parseFieldDesc descBlockC = ⟨[70], 67, 1, 0⟩ from by decide]

/-- Witness for the amended C2: `headerLength = 100` gives the
non-integral `(100 - 33) / 32`, floored to 2 fields, and decoding
succeeds. -/
theorem C2_field_count_floor_witness :
    dbfreader ((0 :: 0 :: 0 :: 0 :: 0 :: 0 :: 0 :: 0 :: (100 % 256) :: (100 / 256 % 256)
          :: List.replicate 22 0)
        ++ flatRep (numFieldsOf 100) descBlockC ++ [13])
      = .ok ⟨List.replicate (numFieldsOf 100) [70],
             List.replicate (numFieldsOf 100) (67, 1, 0), []⟩ :=
  C2_field_count_floor 100 (by decide) (by decide)

/-- C9 counterexample: a field with the unsupported type code `'X'` (0x58)
does not make decoding fail with any error; the field falls through to the
character-data branch and its raw slice is yielded as text. -/
theorem C9_counterexample :
    dbfreader ([0, 0, 0, 0, 1, 0, 0, 0, 65, 0] ++ List.replicate 22 0
        ++ ([65] ++ List.replicate 10 0 ++ [88] ++ [0, 0, 0, 0] ++ [2, 0]
            ++ List.replicate 14 0)
        ++ [13] ++ [32, 97, 98])
      = .ok ⟨[[65]], [(88, 2, 0)], [[.str [97, 98]]]⟩ := by
  decide

/-- C9 (amended): a field whose type code lies outside `{N, D, L}` — which
includes `C`, `M` and every unsupported code — is handled by the
character-data fallback on both sides: decoding yields the raw slice as
text unchanged and never errors, and encoding renders
`str(value)[:size].ljust(size)` rather than failing; no
`UnsupportedFieldType` error exists in the code. -/
theorem C9_no_unsupported_type_error (typ : Byte) (size deci : Nat)
    (raw : List Byte) (v : Value)
    (h1 : typ ≠ 78) (h2 : typ ≠ 68) (h3 : typ ≠ 76) :
    decodeField typ deci raw = .ok (.str raw) ∧
      renderRaw typ size v = .ok (ljustPad size 32 ((pyStr v).take size)) := by
  unfold decodeField renderRaw
  rw [if_neg h1, if_neg h2, if_neg h3, if_neg h1, if_neg h2, if_neg h3]
  exact ⟨rfl, rfl⟩

/-- Witness for the amended C9: type code `'X'` decodes a 2-byte slice
as-is and encodes a text value by truncation and padding. -/
theorem C9_no_unsupported_type_error_witness :
    decodeField 88 0 [97, 98] = .ok (.str [97, 98]) ∧
      renderRaw 88 2 (.str [97]) = .ok (ljustPad 2 32 ((pyStr (.str [97])).take 2)) :=
  C9_no_unsupported_type_error 88 2 0 [97, 98] (.str [97])
    (by decide) (by decide) (by decide)

/-- A successful fixed-size read is unaffected by bytes appended to the
stream. -/
lemma readBytes_frame (n : Nat) (s t bs rest : List Byte)
    (h : readBytes n s = .ok (bs, rest)) :
    readBytes n (s ++ t) = .ok (bs, rest ++ t) := by
  unfold readBytes at h ⊢
  split at h
  next hn =>
    cases h
    rw [if_pos (by simp; omega)]
    rw [List.take_append_of_le_length hn, List.drop_append_of_le_length hn]
  next hn => cases h

/-- A successful descriptor-loop run is unaffected by appended bytes. -/
lemma readFields_frame (k : Nat) :
    ∀ s t flds rest, readFields k s = .ok (flds, rest) →
      readFields k (s ++ t) = .ok (flds, rest ++ t) := by
  induction k with
  | zero =>
      intro s t flds rest h
      cases h
      rfl
  | succ k ih =>
      intro s t flds rest h
      simp only [readFields] at h ⊢
      split at h
      next e heq => cases h
      next bs s1 heq =>
        split at h
        next e heq2 => cases h
        next fr s2 heq2 =>
          cases h
          simp [readBytes_frame _ _ t _ _ heq, ih _ t _ _ heq2]

/-- A successful record-loop run is unaffected by appended bytes. -/
lemma readRecords_frame (flds : List Field) (fsz : Nat) (n : Nat) :
    ∀ s t rs rest, readRecords flds fsz n s = .ok (rs, rest) →
      readRecords flds fsz n (s ++ t) = .ok (rs, rest ++ t) := by
  induction n with
  | zero =>
      intro s t rs rest h
      cases h
      rfl
  | succ n ih =>
      intro s t rs rest h
      simp only [readRecords] at h ⊢
      split at h
      next e heq => cases h
      next raw s1 heq =>
        split at h
        next hc =>
          simp only [readBytes_frame _ s t raw s1 heq]
          rw [if_pos hc]
          exact ih s1 t rs rest h
        next hc =>
          split at h
          next e heq2 => cases h
          next rec heq2 =>
            split at h
            next e heq3 => cases h
            next rest' s2 heq3 =>
              cases h
              simp only [readBytes_frame _ _ t _ _ heq]
              rw [if_neg hc]
              simp [heq2, ih _ t _ _ heq3]

/-- C10: the decoder reads exactly the header's declared record count of
record blocks and then ends; it never reads or validates the 0x1A file
terminator, so arbitrary trailing bytes after the last declared record
(including a missing terminator) are left unread and never change the
decoded output or cause an error — even though the encoder always writes
a final 0x1A, as the last conjunct states. -/
theorem C10_trailing_bytes_ignored (s t : List Byte) (d : DbfData) (rest : List Byte)
    (h : dbfreaderRun s = .ok (d, rest)) :
    dbfreaderRun (s ++ t) = .ok (d, rest ++ t)
    ∧ dbfreader (s ++ t) = .ok d
    ∧ ∀ ns fs rcs nro yr mon day out,
        dbfwriter ns fs rcs nro yr mon day = .ok out → out.getLast? = some 26 := by
  have hrun : dbfreaderRun (s ++ t) = .ok (d, rest ++ t) := by
    simp only [dbfreaderRun] at h ⊢
    split at h
    next e heq => cases h
    next hdr s1 heq =>
      split at h
      next e heq2 => cases h
      next flds s2 heq2 =>
        split at h
        next s3 =>
          split at h
          next e heq3 => cases h
          next recs s4 heq3 =>
            cases h
            simp only [List.map_cons, List.sum_cons] at heq3
            simp [readBytes_frame _ _ t _ _ heq,
                  readFields_frame _ _ t _ _ heq2,
                  List.cons_append,
                  readRecords_frame _ _ _ _ t _ _ heq3]
        next hne => cases h
  refine ⟨hrun, ?_, ?_⟩
  · unfold dbfreader
    rw [hrun]
  · intro ns fs rcs nro yr mon day out hw
    simp only [dbfwriter] at hw
    split at hw
    next hc =>
      split at hw
      next e heq => cases hw
      next flds heq =>
        split at hw
        next e heq2 => cases hw
        next recs heq2 =>
          cases hw
          rw [List.getLast?_concat]
    next hc => cases hw

/-- Witness for C10: a minimal zero-field, zero-record stream decodes the
same with junk bytes appended, and the junk is left unread. -/
theorem C10_trailing_bytes_ignored_witness :
    dbfreaderRun (([0, 0, 0, 0, 0, 0, 0, 0, 33, 0] ++ List.replicate 22 0 ++ [13])
        ++ [26, 99, 7])
      = .ok (⟨[], [], []⟩, [] ++ [26, 99, 7])
    ∧ dbfreader (([0, 0, 0, 0, 0, 0, 0, 0, 33, 0] ++ List.replicate 22 0 ++ [13])
        ++ [26, 99, 7])
      = .ok ⟨[], [], []⟩
    ∧ ∀ ns fs rcs nro yr mon day out,
        dbfwriter ns fs rcs nro yr mon day = .ok out → out.getLast? = some 26 :=
  C10_trailing_bytes_ignored
    ([0, 0, 0, 0, 0, 0, 0, 0, 33, 0] ++ List.replicate 22 0 ++ [13])
    [26, 99, 7] ⟨[], [], []⟩ [] (by decide)

end DbfUtils
